import Mathlib

/-!
A shallow embedding of the Typogenetics simulator (`typogenetics/main.py`)
and a verification of its specification claims.

Strands are `List Char` over the alphabet `A T G C` with the blank `' '`
as the gap placeholder, mirroring the Python strings.  Python string
indexing and slicing (including negative indices) are reproduced by the
`py*` helpers; runtime errors (KeyError, IndexError, NameError, TypeError)
are modelled with `Except PyErr`.
-/

namespace Typogenetics

instance instDecEqExcept {ε α : Type} [DecidableEq ε] [DecidableEq α] :
    DecidableEq (Except ε α)
  | .error e, .error f =>
    if h : e = f then .isTrue (by rw [h])
    else .isFalse (fun hh => h (by injection hh))
  | .error _, .ok _ => .isFalse (fun hh => Except.noConfusion hh)
  | .ok _, .error _ => .isFalse (fun hh => Except.noConfusion hh)
  | .ok a, .ok b =>
    if h : a = b then .isTrue (by rw [h])
    else .isFalse (fun hh => h (by injection hh))

/-- Python runtime errors that the source can raise, plus a fuel marker for
the bounded modelling of the `while` scan loops. -/
inductive PyErr where
  | keyError
  | indexError
  | nameError
  | typeError
  | fuelOut
deriving DecidableEq, Repr

/-- The 15 executable commands plus the `punctuation` codon marker,
exactly the `amino` values of `AMINO_DICT`. -/
inductive Amino where
  | punctuation
  | cut
  | del
  | swi
  | mvr
  | mvl
  | cop
  | off
  | ina
  | inc
  | ing
  | int_
  | rpy
  | rpu
  | lpy
  | lpu
deriving DecidableEq, Repr

/-- Turn directions of `AMINO_DICT` (`"r"`, `"l"`, `"s"`, `"N/A"`). -/
inductive Dir where
  | r
  | l
  | s
  | na
deriving DecidableEq, Repr

/-- Python index normalisation: a negative index counts from the end;
`none` when the (normalised) index is out of range (IndexError). -/
def pyIdx (len : Nat) (i : Int) : Option Nat :=
  let j := if i < 0 then i + len else i
  if 0 ≤ j ∧ j < len then some j.toNat else none

/-- Python `s[i]` on a list. -/
def pyGet (l : List Char) (i : Int) : Option Char :=
  match pyIdx l.length i with
  | some j => l.get? j
  | none => none

/-- Python slice-bound normalisation: negative bounds count from the end,
then the bound is clamped into `[0, len]`. -/
def pySliceIdx (len : Nat) (i : Int) : Nat :=
  if i < 0 then (max (i + len) 0).toNat else min i.toNat len

/-- Python `s[:i]`. -/
def pyTake (l : List Char) (i : Int) : List Char :=
  l.take (pySliceIdx l.length i)

/-- Python `s[i:]`. -/
def pyDrop (l : List Char) (i : Int) : List Char :=
  l.drop (pySliceIdx l.length i)

/-- Python `s.find(c)`: first index of `c`, or `-1` when absent. -/
def pyFind (l : List Char) (c : Char) : Int :=
  match l.findIdx? (fun x => x = c) with
  | some n => (n : Int)
  | none => -1

/-- `counterpart`: the fixed base-complement map; `none` models the Python
function falling through and returning `None` on a non-base symbol. -/
def counterpart (b : Char) : Option Char :=
  if b = 'A' then some 'T'
  else if b = 'T' then some 'A'
  else if b = 'C' then some 'G'
  else if b = 'G' then some 'C'
  else if b = ' ' then some ' '
  else none

/-- `find_preferential_binding`: `(dirs.count "r" - dirs.count "l") % 4`
mapped through {0 → A, 1 → G, 2 → T, 3 → C}.  Lean's `Int` `%` agrees with
Python `%` (result in `[0, 4)`). -/
def find_preferential_binding (dirs : List Dir) : Char :=
  let n : Int := ((dirs.count .r : Int) - (dirs.count .l : Int)) % 4
  if n = 0 then 'A'
  else if n = 1 then 'G'
  else if n = 2 then 'T'
  else 'C'

/-- `Enzyme`: the command sequence and the parallel direction list. -/
structure Enzyme where
  seq : List Amino
  dirs : List Dir
deriving DecidableEq, Repr

/-- The preferential binding base computed in `Enzyme.__init__`. -/
def preferentialBinding (e : Enzyme) : Char :=
  find_preferential_binding e.dirs

/-- `AMINO_DICT` lookup on a codon; `none` is a KeyError. -/
def aminoDict (codon : List Char) : Option (Amino × Dir) :=
  match codon with
  | ['A', 'A'] => some (.punctuation, .na)
  | ['A', 'C'] => some (.cut, .s)
  | ['A', 'G'] => some (.del, .s)
  | ['A', 'T'] => some (.swi, .r)
  | ['C', 'A'] => some (.mvr, .s)
  | ['C', 'C'] => some (.mvl, .s)
  | ['C', 'G'] => some (.cop, .r)
  | ['C', 'T'] => some (.off, .l)
  | ['G', 'A'] => some (.ina, .s)
  | ['G', 'C'] => some (.inc, .r)
  | ['G', 'G'] => some (.ing, .r)
  | ['G', 'T'] => some (.int_, .l)
  | ['T', 'A'] => some (.rpy, .r)
  | ['T', 'C'] => some (.rpu, .l)
  | ['T', 'G'] => some (.lpy, .l)
  | ['T', 'T'] => some (.lpu, .l)
  | _ => none

/-- `Strand.derive_codons`: `string[2i : 2i+2]` for
`i < round(len/2 + 0.1)`; that count is `k` for length `2k` and `k+1` for
length `2k+1`, i.e. `(len + 1) / 2` in integer arithmetic. -/
def derive_codons (s : List Char) : List (List Char) :=
  (List.range ((s.length + 1) / 2)).map (fun i => (s.drop (2 * i)).take 2)

/-- The `create_enzyme_s` codon loop with its accumulators: `seq`/`dirs`
build the enzyme under construction, `acc` the emitted enzymes.  A
length-1 codon breaks out of the loop; after the loop a non-empty `seq`
is emitted as a trailing enzyme. -/
def ceLoop : List (List Char) → List Amino → List Dir → List Enzyme →
    Except PyErr (List Enzyme)
  | [], seq, dirs, acc =>
    .ok (acc ++ if seq = [] then [] else [⟨seq, dirs⟩])
  | entry :: rest, seq, dirs, acc =>
    if entry.length = 1 then
      .ok (acc ++ if seq = [] then [] else [⟨seq, dirs⟩])
    else
      match aminoDict entry with
      | none => .error .keyError
      | some (amino, dir) =>
        if amino = .punctuation then
          ceLoop rest [] [] (acc ++ [⟨seq, dirs⟩])
        else
          ceLoop rest (seq ++ [amino]) (dirs ++ [dir]) acc

/-- `create_enzyme_s` on a strand (codons derived as in the source). -/
def create_enzyme_s (s : List Char) : Except PyErr (List Enzyme) :=
  ceLoop (derive_codons s) [] [] []

/-- The mutable state of one `Operation`: the primary strand, the second
(complement) strand, the bound position, the copy-mode flag and the list
of fragments recorded by `cut`. -/
structure OpState where
  primary : List Char
  second : List Char
  bound : Int
  copyMode : Bool
  strings : List (List Char)
deriving DecidableEq, Repr

/-- `Operation.move_right`: increment `bound`; synthesize the complement
into the second strand only when the new position is strictly before the
last index, copy mode is on and the second strand holds a gap there. -/
def moveRight (st : OpState) : Except PyErr OpState :=
  let b := st.bound + 1
  if b < (st.primary.length : Int) - 1 ∧ st.copyMode then
    match pyGet st.second b with
    | none => .error .indexError
    | some ch =>
      if ch = ' ' then
        match pyGet st.primary b with
        | none => .error .indexError
        | some pch =>
          match counterpart pch with
          | none => .error .typeError
          | some cp =>
            .ok { st with
                  bound := b
                  second := pyTake st.second b ++ [cp] ++ pyDrop st.second (b + 1) }
      else .ok { st with bound := b }
  else .ok { st with bound := b }

/-- `Operation.move_left`: decrement `bound`; synthesize when the new
position is `> -1`, copy mode is on and the second strand holds a gap. -/
def moveLeft (st : OpState) : Except PyErr OpState :=
  let b := st.bound - 1
  if -1 < b ∧ st.copyMode then
    match pyGet st.second b with
    | none => .error .indexError
    | some ch =>
      if ch = ' ' then
        match pyGet st.primary b with
        | none => .error .indexError
        | some pch =>
          match counterpart pch with
          | none => .error .typeError
          | some cp =>
            .ok { st with
                  bound := b
                  second := pyTake st.second b ++ [cp] ++ pyDrop st.second (b + 1) }
      else .ok { st with bound := b }
  else .ok { st with bound := b }

/-- The `while` scan of `rpy`/`rpu`: step right while the primary base at
`bound` is neither stop base nor a gap.  Fuel-bounded; callers pass
enough fuel that Python's own outcome (stop or IndexError) is reached. -/
def scanRight (stopA stopB : Char) : Nat → OpState → Except PyErr OpState
  | 0, _ => .error .fuelOut
  | fuel + 1, st =>
    match pyGet st.primary st.bound with
    | none => .error .indexError
    | some c =>
      if c = stopA ∨ c = stopB ∨ c = ' ' then .ok st
      else
        match moveRight st with
        | .error e => .error e
        | .ok st1 => scanRight stopA stopB fuel st1

/-- The `while` scan of `lpy`/`lpu`, stepping left. -/
def scanLeft (stopA stopB : Char) : Nat → OpState → Except PyErr OpState
  | 0, _ => .error .fuelOut
  | fuel + 1, st =>
    match pyGet st.primary st.bound with
    | none => .error .indexError
    | some c =>
      if c = stopA ∨ c = stopB ∨ c = ' ' then .ok st
      else
        match moveLeft st with
        | .error e => .error e
        | .ok st1 => scanLeft stopA stopB fuel st1

/-- The post-scan `if strand[bound] == " ": bound = -1` check. -/
def detachIfGap (st : OpState) : Except PyErr OpState :=
  match pyGet st.primary st.bound with
  | none => .error .indexError
  | some c => .ok (if c = ' ' then { st with bound := -1 } else st)

/-- The shared body of the four insert commands: splice `base` into the
primary after `bound` and, in copy mode, its complement (else a gap) into
the second strand at the same offset. -/
def insertCmd (base compl : Char) (st : OpState) : OpState :=
  { st with
    primary := pyTake st.primary (st.bound + 1) ++ [base] ++ pyDrop st.primary (st.bound + 1)
    second := pyTake st.second (st.bound + 1) ++
      [if st.copyMode then compl else ' '] ++ pyDrop st.second (st.bound + 1) }

/-- `Operation.iter`: dispatch one command on the state. -/
def iter (action : Amino) (st : OpState) : Except PyErr OpState :=
  match action with
  | .punctuation => .ok { st with bound := -1 }
  | .off => .ok { st with copyMode := false }
  | .cop => .ok { st with copyMode := true }
  | .del =>
    .ok { st with primary := pyTake st.primary st.bound ++
                  pyDrop st.primary (st.bound + 1) ++ [' '] }
  | .ina => .ok (insertCmd 'A' 'T' st)
  | .inc => .ok (insertCmd 'C' 'G' st)
  | .ing => .ok (insertCmd 'G' 'C' st)
  | .int_ => .ok (insertCmd 'T' 'A' st)
  | .cut =>
    .ok (let np := pyTake st.primary (st.bound + 1)
         { st with
           strings := st.strings ++ [pyDrop st.primary (st.bound + 1),
             (pyDrop st.second (st.bound + 1)).reverse]
           primary := np
           second := pyTake st.second (st.bound + 1)
           bound := (np.length : Int) - 1 })
  | .swi =>
    match pyGet st.second st.bound with
    | none => .error .indexError
    | some c =>
      if c = ' ' then .ok { st with bound := -1 }
      else
        .ok { st with
              primary := st.second.reverse
              second := st.primary.reverse
              bound := (st.second.length : Int) - st.bound - 1 }
  | .mvr => moveRight st
  | .mvl => moveLeft st
  | .rpy =>
    match moveRight st with
    | .error e => .error e
    | .ok st1 =>
      if (st1.primary.length : Int) - 1 ≤ st1.bound then .ok st1
      else if 'T' ∈ pyDrop st1.primary (st1.bound + 1) ∨
              'C' ∈ pyDrop st1.primary (st1.bound + 1) then
        match scanRight 'T' 'C' (2 * st1.primary.length + 4) st1 with
        | .error e => .error e
        | .ok st2 => detachIfGap st2
      else .ok st1
  | .rpu =>
    match moveRight st with
    | .error e => .error e
    | .ok st1 =>
      if (st1.primary.length : Int) - 1 ≤ st1.bound then .ok st1
      else if 'A' ∈ pyDrop st1.primary (st1.bound + 1) ∨
              'G' ∈ pyDrop st1.primary (st1.bound + 1) then
        match scanRight 'A' 'G' (2 * st1.primary.length + 4) st1 with
        | .error e => .error e
        | .ok st2 => detachIfGap st2
      else .ok st1
  | .lpy =>
    if 'T' ∈ pyTake st.primary st.bound ∨ 'C' ∈ pyTake st.primary st.bound then
      match moveLeft st with
      | .error e => .error e
      | .ok st1 =>
        match scanLeft 'T' 'C' (2 * st.primary.length + 4) st1 with
        | .error e => .error e
        | .ok st2 => detachIfGap st2
    else .ok st
  | .lpu =>
    match moveLeft st with
    | .error e => .error e
    | .ok st1 =>
      if 'A' ∈ pyTake st1.primary st1.bound ∨ 'G' ∈ pyTake st1.primary st1.bound then
        match scanLeft 'A' 'G' (2 * st1.primary.length + 4) st1 with
        | .error e => .error e
        | .ok st2 => detachIfGap st2
      else .ok st1

/-- The `Operation.operate` main loop: run commands in order while the
bound position is in `(-1, len - 1)` and commands remain. -/
def operateLoop : List Amino → OpState → Except PyErr OpState
  | [], st => .ok st
  | a :: rest, st =>
    if -1 < st.bound ∧ st.bound < (st.primary.length : Int) - 1 then
      match iter a st with
      | .error e => .error e
      | .ok st1 => operateLoop rest st1
    else .ok st

/-- The initial `Operation` state: second strand all gaps, binding at the
first occurrence of the enzyme's preferential base, copy mode off. -/
def initState (e : Enzyme) (s : List Char) : OpState :=
  { primary := s
    second := List.replicate s.length ' '
    bound := pyFind s (preferentialBinding e)
    copyMode := false
    strings := [] }

/-- The filter applied to each split piece during output assembly:
non-empty and containing no gap. -/
def goodPiece (p : List Char) : Bool :=
  decide (p ≠ []) && decide (' ' ∉ p)

/-- Output assembly at the end of `operate`: fragments recorded by `cut`
(split on gaps), then the gap-free runs of the primary strand, then those
of the second strand. -/
def finalStrings (st : OpState) : List (List Char) :=
  (st.strings.flatMap (fun s => (s.splitOn ' ').filter goodPiece)) ++
  ((st.primary.splitOn ' ').filter goodPiece) ++
  ((st.second.splitOn ' ').filter goodPiece)

/-- A whole `Operation(enzyme, strand)`: run to completion and assemble
the output strands. -/
def applyEnzyme (e : Enzyme) (s : List Char) : Except PyErr (List (List Char)) :=
  match operateLoop e.seq (initState e s) with
  | .error err => .error err
  | .ok st => .ok (finalStrings st)

/-- The ribosome pass of the driver: `create_enzyme_s` over every strand,
results concatenated in order. -/
def translateAll : List (List Char) → Except PyErr (List Enzyme)
  | [] => .ok []
  | s :: rest =>
    match create_enzyme_s s with
    | .error e => .error e
    | .ok es =>
      match translateAll rest with
      | .error e => .error e
      | .ok more => .ok (es ++ more)

/-- The driver's inner loop for one enzyme: apply it to each strand of the
snapshot, accumulating all output strands into `temp_strands`. -/
def innerLoop (e : Enzyme) : List (List Char) → List (List Char) →
    Except PyErr (List (List Char))
  | [], acc => .ok acc
  | s :: rest, acc =>
    match applyEnzyme e s with
    | .error err => .error err
    | .ok outs => innerLoop e rest (acc ++ outs)

/-- The driver's enzyme loop.  In the source the inner loop reassigns
`strands` on every iteration, but it iterates over the snapshot taken at
loop entry, so after each enzyme `strands` equals the freshly collected
`temp_strands`; the next enzyme therefore acts on the previous enzyme's
outputs.  The second component tracks the last value assigned to
`temp_strands` (`none` while it is still unbound). -/
def enzymeLoop : List Enzyme → List (List Char) → Option (List (List Char)) →
    Except PyErr (List (List Char) × Option (List (List Char)))
  | [], strands, temp => .ok (strands, temp)
  | e :: rest, strands, _ =>
    match innerLoop e strands [] with
    | .error err => .error err
    | .ok newTemp => enzymeLoop rest newTemp (some newTemp)

/-- The generation loop of `run_a_set_of_generations`.  Per generation:
translate all strands, run the enzyme loop, record
`strings_per_generation[i] = temp_strands` (a NameError when
`temp_strands` has never been assigned), then check the explosion guard
(`len(strands) > 20 or len(enzymes) > 10`) and either stop broken or
continue.  Returns the `broken` flag and the recorded generations. -/
def genLoop : Nat → List (List Char) → Option (List (List Char)) →
    List (List (List Char)) → Except PyErr (Bool × List (List (List Char)))
  | 0, _, _, gens => .ok (false, gens)
  | n + 1, strands, temp, gens =>
    match translateAll strands with
    | .error e => .error e
    | .ok enzymes =>
      match enzymeLoop enzymes strands temp with
      | .error e => .error e
      | .ok (strands1, temp1) =>
        match temp1 with
        | none => .error .nameError
        | some g =>
          if 20 < strands1.length ∨ 10 < enzymes.length then
            .ok (true, gens ++ [g])
          else
            genLoop n strands1 temp1 (gens ++ [g])

/-- `identify_duplicates` loop: `seen` and the collected duplicates.  The
source wraps the result in `set(...)`; only membership queries are made
of it, so the list of duplicates is an equivalent model. -/
def idupLoop : List (List Char) → List (List Char) → List (List Char) →
    List (List Char)
  | [], _, dups => dups
  | x :: rest, seen, dups =>
    if x ∈ seen then idupLoop rest seen (dups ++ [x])
    else idupLoop rest (seen ++ [x]) dups

/-- `identify_duplicates`. -/
def identify_duplicates (l : List (List Char)) : List (List Char) :=
  idupLoop l [] []

/-- The loop-detection scan: walking the recorded generations from last
to first, report a loop when some generation contains a duplicate equal
to the starting string. -/
def loopDetect (gens : List (List (List Char))) (start : List Char) : Bool :=
  gens.reverse.any (fun g => (identify_duplicates g).any (fun d => d = start))

/-- `run_a_set_of_generations` with a given starting string: run the
generations, then (only when not broken) run loop detection; the returned
value is the `loop_found` boolean. -/
def run_a_set_of_generations (start : List Char) (maxIterations : Nat) :
    Except PyErr Bool :=
  match genLoop maxIterations [start] none [] with
  | .error e => .error e
  | .ok (broken, gens) => .ok (!broken && loopDetect gens start)

/-- Modelled from the spec (claim C1 wording): cross-application of every
enzyme of the generation to every strand alive at the start of the
generation, all fragments of all pairs collected together. -/
def claimedGenApply : List Enzyme → List (List Char) →
    Except PyErr (List (List Char))
  | [], _ => .ok []
  | e :: rest, strands =>
    match innerLoop e strands [] with
    | .error err => .error err
    | .ok outs =>
      match claimedGenApply rest strands with
      | .error err => .error err
      | .ok more => .ok (outs ++ more)

/-- The clean sequential characterisation of the driver's enzyme loop:
each enzyme's collected outputs replace the working strand set before the
next enzyme runs. -/
def seqApply : List Enzyme → List (List Char) → Except PyErr (List (List Char))
  | [], strands => .ok strands
  | e :: rest, strands =>
    match innerLoop e strands [] with
    | .error err => .error err
    | .ok outs => seqApply rest outs

/-- Modelled from the spec (claim C8 wording): the fixed map
{0 → A, 1 → G, 2 → T, 3 → C} on the net-turn value. -/
def prefMapSpec (n : Int) : Char :=
  if n = 0 then 'A'
  else if n = 1 then 'G'
  else if n = 2 then 'T'
  else 'C'

end Typogenetics

namespace Typogenetics

/-! ### Helper lemmas about the Python index/slice helpers -/

theorem pySliceIdx_nonneg {i : Int} (len : Nat) (h : 0 ≤ i) :
    pySliceIdx len i = min i.toNat len := by
  unfold pySliceIdx
  rw [if_neg (by omega)]

theorem pyTake_nonneg (l : List Char) {i : Int} (h : 0 ≤ i) :
    pyTake l i = l.take i.toNat := by
  unfold pyTake
  rw [pySliceIdx_nonneg _ h, List.take_eq_take]
  omega

theorem pyDrop_nonneg (l : List Char) {i : Int} (h : 0 ≤ i) :
    pyDrop l i = l.drop i.toNat := by
  unfold pyDrop
  rw [pySliceIdx_nonneg _ h]
  rcases le_total i.toNat l.length with h2 | h2
  · rw [min_eq_left h2]
  · rw [min_eq_right h2, List.drop_eq_nil_of_le h2, List.drop_eq_nil_of_le le_rfl]

theorem pyIdx_nonneg (len : Nat) {i : Int} (h : 0 ≤ i) :
    pyIdx len i = if i < (len : Int) then some i.toNat else none := by
  simp only [pyIdx]
  rw [if_neg (not_lt.mpr h)]
  by_cases h1 : i < (len : Int)
  · rw [if_pos ⟨h, h1⟩, if_pos h1]
  · rw [if_neg (by omega), if_neg h1]

theorem pyGet_nonneg_eq (l : List Char) {i : Int} (h : 0 ≤ i) :
    pyGet l i = if i < (l.length : Int) then l.get? i.toNat else none := by
  unfold pyGet
  rw [pyIdx_nonneg _ h]
  by_cases h1 : i < (l.length : Int)
  · rw [if_pos h1, if_pos h1]
  · rw [if_neg h1, if_neg h1]

theorem pyGet_some_lt {l : List Char} {i : Int} {c : Char} (h0 : 0 ≤ i)
    (h : pyGet l i = some c) : i < (l.length : Int) := by
  rw [pyGet_nonneg_eq l h0] at h
  by_contra hc
  rw [if_neg hc] at h
  exact Option.noConfusion h

theorem splice_set_length (l : List Char) (x : Char) {i : Int} (h0 : 0 ≤ i)
    (h1 : i < (l.length : Int)) :
    (pyTake l i ++ [x] ++ pyDrop l (i + 1)).length = l.length := by
  rw [pyTake_nonneg l h0, pyDrop_nonneg l (by omega)]
  simp only [List.length_append, List.length_take, List.length_cons,
    List.length_nil, List.length_drop]
  omega

theorem splice_ins_length (l : List Char) (x : Char) {i : Int} (h0 : 0 ≤ i)
    (h1 : i ≤ (l.length : Int)) :
    (pyTake l i ++ [x] ++ pyDrop l i).length = l.length + 1 := by
  rw [pyTake_nonneg l h0, pyDrop_nonneg l h0]
  simp only [List.length_append, List.length_take, List.length_cons,
    List.length_nil, List.length_drop]
  omega

theorem del_splice_length (l : List Char) {i : Int} (h0 : 0 ≤ i)
    (h1 : i < (l.length : Int)) :
    (pyTake l i ++ pyDrop l (i + 1) ++ [' ']).length = l.length := by
  rw [pyTake_nonneg l h0, pyDrop_nonneg l (by omega)]
  simp only [List.length_append, List.length_take, List.length_cons,
    List.length_nil, List.length_drop]
  omega

theorem splice_set_get (l : List Char) (x : Char) {i : Int} (h0 : 0 ≤ i)
    (h1 : i < (l.length : Int)) :
    pyGet (pyTake l i ++ [x] ++ pyDrop l (i + 1)) i = some x := by
  have hlen := splice_set_length l x h0 h1
  rw [pyGet_nonneg_eq _ h0, hlen, if_pos h1]
  rw [pyTake_nonneg l h0, pyDrop_nonneg l (by omega)] at hlen ⊢
  have ht : (l.take i.toNat).length = i.toNat := by
    rw [List.length_take]
    omega
  rw [List.get?_eq_getElem?, List.append_assoc,
    List.getElem?_append_right (le_of_eq ht)]
  simp [ht]

/-! ### Structural facts about the engine's moves and scans -/

theorem moveRight_ok {st st1 : OpState} (h : moveRight st = .ok st1)
    (hb : -1 ≤ st.bound) :
    st1.primary = st.primary ∧ st1.second.length = st.second.length ∧
    st1.bound = st.bound + 1 := by
  simp only [moveRight] at h
  split at h
  case isTrue hc =>
    cases hg : pyGet st.second (st.bound + 1) with
    | none => rw [hg] at h; exact Except.noConfusion h
    | some ch =>
      rw [hg] at h
      simp only at h
      split at h
      case isTrue hch =>
        cases hp : pyGet st.primary (st.bound + 1) with
        | none => rw [hp] at h; exact Except.noConfusion h
        | some pch =>
          rw [hp] at h
          simp only at h
          cases hcp : counterpart pch with
          | none => rw [hcp] at h; exact Except.noConfusion h
          | some cp =>
            rw [hcp] at h
            simp only at h
            injection h with h1
            subst h1
            refine ⟨rfl, ?_, rfl⟩
            exact splice_set_length st.second cp (by omega)
              (pyGet_some_lt (by omega) hg)
      case isFalse hch =>
        injection h with h1
        subst h1
        exact ⟨rfl, rfl, rfl⟩
  case isFalse hc =>
    injection h with h1
    subst h1
    exact ⟨rfl, rfl, rfl⟩

theorem moveLeft_ok {st st1 : OpState} (h : moveLeft st = .ok st1) :
    st1.primary = st.primary ∧ st1.second.length = st.second.length ∧
    st1.bound = st.bound - 1 := by
  simp only [moveLeft] at h
  split at h
  case isTrue hc =>
    cases hg : pyGet st.second (st.bound - 1) with
    | none => rw [hg] at h; exact Except.noConfusion h
    | some ch =>
      rw [hg] at h
      simp only at h
      split at h
      case isTrue hch =>
        cases hp : pyGet st.primary (st.bound - 1) with
        | none => rw [hp] at h; exact Except.noConfusion h
        | some pch =>
          rw [hp] at h
          simp only at h
          cases hcp : counterpart pch with
          | none => rw [hcp] at h; exact Except.noConfusion h
          | some cp =>
            rw [hcp] at h
            simp only at h
            injection h with h1
            subst h1
            refine ⟨rfl, ?_, rfl⟩
            exact splice_set_length st.second cp (by omega)
              (pyGet_some_lt (by omega) hg)
      case isFalse hch =>
        injection h with h1
        subst h1
        exact ⟨rfl, rfl, rfl⟩
  case isFalse hc =>
    injection h with h1
    subst h1
    exact ⟨rfl, rfl, rfl⟩

theorem scanRight_ok (sa sb : Char) :
    ∀ (fuel : Nat) (st st1 : OpState), scanRight sa sb fuel st = .ok st1 →
    0 ≤ st.bound →
    st1.primary = st.primary ∧ st1.second.length = st.second.length := by
  intro fuel
  induction fuel with
  | zero =>
    intro st st1 h _
    exact Except.noConfusion h
  | succ n ih =>
    intro st st1 h hb
    simp only [scanRight] at h
    cases hg : pyGet st.primary st.bound with
    | none => rw [hg] at h; exact Except.noConfusion h
    | some c =>
      rw [hg] at h
      simp only at h
      split at h
      case isTrue hstop =>
        injection h with h1
        subst h1
        exact ⟨rfl, rfl⟩
      case isFalse hstop =>
        cases hm : moveRight st with
        | error e => rw [hm] at h; exact Except.noConfusion h
        | ok st2 =>
          rw [hm] at h
          obtain ⟨hp2, hl2, hb2⟩ := moveRight_ok hm (by omega)
          obtain ⟨hp3, hl3⟩ := ih st2 st1 h (by omega)
          exact ⟨hp3.trans hp2, hl3.trans hl2⟩

theorem scanLeft_ok (sa sb : Char) :
    ∀ (fuel : Nat) (st st1 : OpState), scanLeft sa sb fuel st = .ok st1 →
    st1.primary = st.primary ∧ st1.second.length = st.second.length := by
  intro fuel
  induction fuel with
  | zero =>
    intro st st1 h
    exact Except.noConfusion h
  | succ n ih =>
    intro st st1 h
    simp only [scanLeft] at h
    cases hg : pyGet st.primary st.bound with
    | none => rw [hg] at h; exact Except.noConfusion h
    | some c =>
      rw [hg] at h
      simp only at h
      split at h
      case isTrue hstop =>
        injection h with h1
        subst h1
        exact ⟨rfl, rfl⟩
      case isFalse hstop =>
        cases hm : moveLeft st with
        | error e => rw [hm] at h; exact Except.noConfusion h
        | ok st2 =>
          rw [hm] at h
          obtain ⟨hp2, hl2, hb2⟩ := moveLeft_ok hm
          obtain ⟨hp3, hl3⟩ := ih st2 st1 h
          exact ⟨hp3.trans hp2, hl3.trans hl2⟩

theorem detachIfGap_ok {st st1 : OpState} (h : detachIfGap st = .ok st1) :
    st1.primary = st.primary ∧ st1.second = st.second := by
  simp only [detachIfGap] at h
  cases hg : pyGet st.primary st.bound with
  | none => rw [hg] at h; exact Except.noConfusion h
  | some c =>
    rw [hg] at h
    simp only at h
    injection h with h1
    subst h1
    split
    · exact ⟨rfl, rfl⟩
    · exact ⟨rfl, rfl⟩

/-! ### Claim C1 -/

/-- C1 (counterexample): on starting strand `"GAAAGA"` the generation's
translated union holds two `ina` enzymes, and the strand set the driver
records for the generation (`["GAAAAAGA"]`, both inserts applied to the
same strand in sequence) differs from the pooled cross-application of
every enzyme to the start-of-generation strand
(`["GAAAAGA", "GAAAAGA"]`). -/
theorem c1_counterexample :
    create_enzyme_s "GAAAGA".toList = .ok [⟨[.ina], [.s]⟩, ⟨[.ina], [.s]⟩]
    ∧ genLoop 1 ["GAAAGA".toList] none [] = .ok (false, [["GAAAAAGA".toList]])
    ∧ claimedGenApply [⟨[.ina], [.s]⟩, ⟨[.ina], [.s]⟩] ["GAAAGA".toList]
        = .ok ["GAAAAGA".toList, "GAAAAGA".toList]
    ∧ [["GAAAAAGA".toList]] ≠ [["GAAAAGA".toList, "GAAAAGA".toList]] := by
  exact ⟨by decide, by decide, by decide, by decide⟩

/-- C1 (amended): the driver applies the generation's enzymes
sequentially, not as a pooled cross product: each enzyme is applied to
every strand of the current working set and the collected outputs replace
the working set before the next enzyme runs, so the next generation's
strand set is the output of the last enzyme in that chain. -/
theorem c1_sequential_apply (es : List Enzyme) :
    ∀ (strands : List (List Char)) (temp : Option (List (List Char))),
    (enzymeLoop es strands temp).map Prod.fst = seqApply es strands := by
  induction es with
  | nil => intro strands temp; rfl
  | cons e rest ih =>
    intro strands temp
    simp only [enzymeLoop, seqApply]
    cases h : innerLoop e strands [] with
    | error err => rfl
    | ok outs => exact ih outs (some outs)

/-! ### Claim C2 -/

/-- C2 (counterexample): the run on 22 `A`s (11 punctuation codons, hence
11 > 10 enzymes) trips the explosion guard (`broken = true`), yet the
caller receives `.ok false` — exactly the value an ordinary loop-free run
such as `"AAAA"` (which does not trip the guard) also returns, so no
distinct `aborted` result exists. -/
theorem c2_counterexample :
    genLoop 1 [List.replicate 22 'A'] none [] =
      .ok (true, [[List.replicate 22 'A']])
    ∧ run_a_set_of_generations (List.replicate 22 'A') 1 = .ok false
    ∧ genLoop 1 ["AAAA".toList] none [] = .ok (false, [["AAAA".toList]])
    ∧ run_a_set_of_generations "AAAA".toList 1 = .ok false := by
  exact ⟨by decide, by decide, by decide, by decide⟩

/-- C2 (amended): when the explosion guard trips (the generation loop
stops with `broken = true`, executing no further generations), loop
detection is skipped and the caller receives plain `looped = false`
(`.ok false`), not a distinct aborted value. -/
theorem c2_guard_returns_false (s : List Char) (n : Nat)
    (gens : List (List (List Char)))
    (h : genLoop n [s] none [] = .ok (true, gens)) :
    run_a_set_of_generations s n = .ok false := by
  unfold run_a_set_of_generations
  rw [h]
  rfl

/-- C2 (witness). -/
theorem c2_guard_returns_false_witness :
    run_a_set_of_generations (List.replicate 22 'A') 1 = .ok false :=
  c2_guard_returns_false (List.replicate 22 'A') 1
    [[List.replicate 22 'A']] (by decide)

/-! ### Claim C3 -/

/-- C3 (counterexample): `run_a_set_of_generations` performs no boundary
validation: the starting string `"AAX"` contains the invalid symbol `X`
yet the run completes normally with `.ok false` (the invalid codon is
never looked up because translation stops at the length-1 trailing
codon), and a call with `max_generations = 0 < 1` also silently returns
`.ok false` instead of failing fast. -/
theorem c3_counterexample :
    run_a_set_of_generations "AAX".toList 1 = .ok false
    ∧ run_a_set_of_generations "ATGC".toList 0 = .ok false := by
  exact ⟨by decide, by decide⟩

/-- C3 (amended): no validation happens at the boundary: every call with
`max_generations = 0` (i.e. `< 1`) executes no generation and returns
`looped = false` for any starting string, however malformed; invalid
symbols are never rejected up front and can only surface later as a
lookup failure inside translation if an invalid complete codon is
reached. -/
theorem c3_no_boundary_validation (s : List Char) :
    run_a_set_of_generations s 0 = .ok false := rfl

/-! ### Claim C7 -/

/-- C7: the strand `"AAAA"` (codons `AA`, `AA`) translates to enzymes
with an empty command list (one per punctuation codon, so two of them),
the empty enzyme's preferential binding base is `A` (net turns = 0), and
applying an empty-command enzyme to any strand mutates nothing: the
operation loop ends immediately with the primary strand (and the all-gap
second strand) exactly as initialised. -/
theorem c7_empty_enzyme :
    create_enzyme_s "AAAA".toList = .ok [⟨[], []⟩, ⟨[], []⟩]
    ∧ preferentialBinding ⟨[], []⟩ = 'A'
    ∧ ∀ s : List Char,
        operateLoop (Enzyme.mk [] []).seq (initState ⟨[], []⟩ s) =
          .ok (initState ⟨[], []⟩ s)
        ∧ (initState ⟨[], []⟩ s).primary = s := by
  exact ⟨by decide, by decide, fun s => ⟨rfl, rfl⟩⟩

/-! ### Claim C8 -/

/-- C8: for every direction list, the preferential binding base is one of
{A, G, T, C}, equals the image of `(count r − count l) % 4` under the
fixed map {0 → A, 1 → G, 2 → T, 3 → C}, and depends on the direction
list only through that value. -/
theorem c8_preferential_binding (dirs : List Dir) :
    (find_preferential_binding dirs = 'A' ∨
     find_preferential_binding dirs = 'G' ∨
     find_preferential_binding dirs = 'T' ∨
     find_preferential_binding dirs = 'C')
    ∧ find_preferential_binding dirs =
        prefMapSpec (((dirs.count .r : Int) - (dirs.count .l : Int)) % 4)
    ∧ ∀ dirs2 : List Dir,
        ((dirs.count .r : Int) - (dirs.count .l : Int)) % 4 =
          ((dirs2.count .r : Int) - (dirs2.count .l : Int)) % 4 →
        find_preferential_binding dirs = find_preferential_binding dirs2 := by
  refine ⟨?_, rfl, ?_⟩
  · simp only [find_preferential_binding]
    split_ifs <;> simp
  · intro dirs2 h
    show prefMapSpec _ = prefMapSpec _
    rw [h]

/-- C8 (witness). -/
theorem c8_preferential_binding_witness :
    find_preferential_binding [Dir.r] =
      prefMapSpec ((([Dir.r].count Dir.r : Int) - ([Dir.r].count Dir.l : Int)) % 4)
    ∧ find_preferential_binding [Dir.r] =
        find_preferential_binding [Dir.l, Dir.r, Dir.r] :=
  ⟨(c8_preferential_binding [Dir.r]).2.1,
   (c8_preferential_binding [Dir.r]).2.2 [Dir.l, Dir.r, Dir.r] (by decide)⟩

/-! ### Claim C10 -/

/-- C10 (counterexample): starting from `"AC"` with 2 generations, the
second generation's strands `["C", "A"]` translate to zero enzymes, yet
the run raises nothing and completes with `.ok false` — the stale
`temp_strands` from the first generation is silently reused. -/
theorem c10_counterexample :
    genLoop 2 ["AC".toList] none [] =
      .ok (false, [[['C'], ['A']], [['C'], ['A']]])
    ∧ translateAll [['C'], ['A']] = .ok []
    ∧ run_a_set_of_generations "AC".toList 2 = .ok false := by
  exact ⟨by decide, by decide, by decide⟩

/-- C10 (amended): the unassigned-variable crash happens exactly when a
zero-enzyme generation occurs before `temp_strands` was ever assigned,
i.e. when the *first* generation's translation yields zero enzymes (for
example a single-symbol starting strand): the run then raises the
unhandled NameError instead of returning a result.  A later zero-enzyme
generation does not raise (see the counterexample). -/
theorem c10_first_generation_no_enzymes (s : List Char) (n : Nat)
    (h1 : 1 ≤ n) (h2 : create_enzyme_s s = .ok []) :
    run_a_set_of_generations s n = .error .nameError := by
  obtain ⟨m, rfl⟩ : ∃ m, n = m + 1 := ⟨n - 1, by omega⟩
  unfold run_a_set_of_generations genLoop
  simp [translateAll, h2, enzymeLoop]

/-- C10 (witness). -/
theorem c10_first_generation_no_enzymes_witness :
    run_a_set_of_generations ['A'] 1 = .error .nameError :=
  c10_first_generation_no_enzymes ['A'] 1 (by decide) (by decide)

/-! ### Claim C4 -/

/-- C4 (counterexample): with copy mode on, `move-right` onto the last
index of the primary strand (a valid index holding a gap in the second
strand) synthesizes nothing: on primary `"AT"` at `p = 0`, after `mvr`
the new `p = 1` is valid, the second strand holds a gap there and the
complement of the primary base `T` is `A`, yet the second strand still
holds the gap `' '` ≠ `'A'`. -/
theorem c4_counterexample :
    iter .mvr ⟨['A', 'T'], [' ', ' '], 0, true, []⟩
      = .ok ⟨['A', 'T'], [' ', ' '], 1, true, []⟩
    ∧ pyGet ([' ', ' '] : List Char) 1 = some ' '
    ∧ pyGet (['A', 'T'] : List Char) 1 = some 'T'
    ∧ counterpart 'T' = some 'A'
    ∧ (' ' : Char) ≠ 'A' := by
  exact ⟨by decide, by decide, by decide, by decide, by decide⟩

/-- C4 (amended): with copy mode on, `move-right` synthesizes the
complement at the new position only when that position is *strictly
before the last index* of the primary strand (`new p < length − 1`, not
merely a valid index); `move-left` synthesizes at every valid new
position (`new p > −1`).  In both cases the synthesized symbol is the
complement of the primary base at the new position. -/
theorem c4_move_synthesis :
    (∀ (st : OpState) (c cp : Char), st.copyMode = true → 0 ≤ st.bound →
      st.bound + 1 < (st.primary.length : Int) - 1 →
      pyGet st.second (st.bound + 1) = some ' ' →
      pyGet st.primary (st.bound + 1) = some c →
      counterpart c = some cp →
      ∃ st1, iter .mvr st = .ok st1 ∧ st1.bound = st.bound + 1 ∧
        pyGet st1.second (st.bound + 1) = some cp)
    ∧ (∀ (st : OpState) (c cp : Char), st.copyMode = true → 0 < st.bound →
      pyGet st.second (st.bound - 1) = some ' ' →
      pyGet st.primary (st.bound - 1) = some c →
      counterpart c = some cp →
      ∃ st1, iter .mvl st = .ok st1 ∧ st1.bound = st.bound - 1 ∧
        pyGet st1.second (st.bound - 1) = some cp) := by
  constructor
  · intro st c cp hcopy hb hlt hgap hp hcp
    refine ⟨{ st with
              bound := st.bound + 1
              second := pyTake st.second (st.bound + 1) ++ [cp] ++
                pyDrop st.second (st.bound + 1 + 1) }, ?_, rfl, ?_⟩
    · show moveRight st = _
      simp only [moveRight, hgap, hp, hcp, hcopy, hlt, and_true, if_true]
    · exact splice_set_get st.second cp (by omega)
        (pyGet_some_lt (by omega) hgap)
  · intro st c cp hcopy hb hgap hp hcp
    refine ⟨{ st with
              bound := st.bound - 1
              second := pyTake st.second (st.bound - 1) ++ [cp] ++
                pyDrop st.second (st.bound - 1 + 1) }, ?_, rfl, ?_⟩
    · show moveLeft st = _
      have hgt : (-1 : Int) < st.bound - 1 := by omega
      simp only [moveLeft, hgap, hp, hcp, hcopy, hgt, and_true, if_true]
    · exact splice_set_get st.second cp (by omega)
        (pyGet_some_lt (by omega) hgap)

/-- C4 (witness). -/
theorem c4_move_synthesis_witness :
    (∃ st1, iter .mvr (OpState.mk ['A', 'T', 'G'] [' ', ' ', ' '] 0 true []) =
        .ok st1 ∧ st1.bound = 0 + 1 ∧
        pyGet st1.second (0 + 1) = some 'A')
    ∧ (∃ st1, iter .mvl (OpState.mk ['A', 'T', 'G'] [' ', ' ', ' '] 2 true []) =
        .ok st1 ∧ st1.bound = 2 - 1 ∧
        pyGet st1.second (2 - 1) = some 'A') :=
  ⟨c4_move_synthesis.1 ⟨['A', 'T', 'G'], [' ', ' ', ' '], 0, true, []⟩ 'T' 'A'
     rfl (by decide) (by decide) (by decide) (by decide) (by decide),
   c4_move_synthesis.2 ⟨['A', 'T', 'G'], [' ', ' ', ' '], 2, true, []⟩ 'T' 'A'
     rfl (by decide) (by decide) (by decide) (by decide)⟩

/-! ### Claim C5 -/

/-- C5 (counterexample): `locate-pyrimidine-left` does not first move one
step left: on primary `"AAA"` at `p = 1` (no pyrimidine anywhere) the
command leaves the state — including `p` — completely unchanged, whereas
the claimed semantics would move `p` to `0`. -/
theorem c5_counterexample :
    iter .lpy ⟨['A', 'A', 'A'], [' ', ' ', ' '], 1, false, []⟩
      = .ok ⟨['A', 'A', 'A'], [' ', ' ', ' '], 1, false, []⟩
    ∧ Except.map OpState.bound
        (iter .lpy ⟨['A', 'A', 'A'], [' ', ' ', ' '], 1, false, []⟩) ≠ .ok 0 := by
  exact ⟨by decide, by decide⟩

/-- C5 (amended): the two leftward locate commands are not symmetric to
each other.  `locate-purine-left` does move one step left first and then
scans only if a purine occurs strictly before the new position;
`locate-pyrimidine-left` instead tests for a pyrimidine strictly before
the *current* position and, when none exists, performs no movement at
all, leaving the state unchanged. -/
theorem c5_locate_left_asymmetry :
    (∀ st : OpState, 'T' ∉ pyTake st.primary st.bound →
      'C' ∉ pyTake st.primary st.bound → iter .lpy st = .ok st)
    ∧ (∀ st st1 : OpState, moveLeft st = .ok st1 →
      'A' ∉ pyTake st1.primary st1.bound →
      'G' ∉ pyTake st1.primary st1.bound → iter .lpu st = .ok st1) := by
  constructor
  · intro st hT hC
    simp only [iter]
    rw [if_neg (not_or.mpr ⟨hT, hC⟩)]
  · intro st st1 hml hA hG
    simp only [iter, hml]
    rw [if_neg (not_or.mpr ⟨hA, hG⟩)]

/-- C5 (witness). -/
theorem c5_locate_left_asymmetry_witness :
    iter .lpy (OpState.mk ['A', 'A', 'A'] [' ', ' ', ' '] 2 false []) =
      .ok (OpState.mk ['A', 'A', 'A'] [' ', ' ', ' '] 2 false [])
    ∧ iter .lpu (OpState.mk ['T', 'T', 'T'] [' ', ' ', ' '] 1 false []) =
      .ok (OpState.mk ['T', 'T', 'T'] [' ', ' ', ' '] 0 false []) :=
  ⟨c5_locate_left_asymmetry.1 ⟨['A', 'A', 'A'], [' ', ' ', ' '], 2, false, []⟩
     (by decide) (by decide),
   c5_locate_left_asymmetry.2 ⟨['T', 'T', 'T'], [' ', ' ', ' '], 1, false, []⟩
     ⟨['T', 'T', 'T'], [' ', ' ', ' '], 0, false, []⟩
     (by decide) (by decide) (by decide)⟩

/-! ### Claim C6 -/

/-- C6: executing `cut` at bound position `p ≥ 0` records `primary[p+1:]`
and the reverse of `second[p+1:]` as output fragments (appended in that
order to the fragment list), truncates both strands to their first `p+1`
symbols, and sets `p` to the new last index of the primary strand. -/
theorem c6_cut_semantics (st : OpState) (h : 0 ≤ st.bound) :
    iter .cut st = .ok { st with
      strings := st.strings ++ [st.primary.drop (st.bound + 1).toNat,
        (st.second.drop (st.bound + 1).toNat).reverse]
      primary := st.primary.take (st.bound + 1).toNat
      second := st.second.take (st.bound + 1).toNat
      bound := ((st.primary.take (st.bound + 1).toNat).length : Int) - 1 } := by
  simp only [iter]
  rw [pyTake_nonneg st.primary (show (0 : Int) ≤ st.bound + 1 by omega),
    pyTake_nonneg st.second (show (0 : Int) ≤ st.bound + 1 by omega),
    pyDrop_nonneg st.primary (show (0 : Int) ≤ st.bound + 1 by omega),
    pyDrop_nonneg st.second (show (0 : Int) ≤ st.bound + 1 by omega)]

/-- C6 (witness): the concrete scenario — `cut` on primary `"ATGC"` at
`p = 1` with copy mode off (second strand all gaps) truncates the
primary to `"AT"`, records the fragment `"GC"` together with the all-gap
reversed second tail, and leaves `p = 1`; the all-gap tail contributes
no output strand, i.e. it is an effectively empty fragment. -/
theorem c6_cut_semantics_witness :
    iter .cut ⟨"ATGC".toList, [' ', ' ', ' ', ' '], 1, false, []⟩
      = .ok ⟨['A', 'T'], [' ', ' '], 1, false, [['G', 'C'], [' ', ' ']]⟩
    ∧ (([' ', ' '] : List Char).splitOn ' ').filter goodPiece = [] :=
  ⟨(c6_cut_semantics ⟨"ATGC".toList, [' ', ' ', ' ', ' '], 1, false, []⟩
      (by decide)).trans (by decide),
   by decide⟩

/-! ### Claim C9 -/

/-- C9: the execution run starts with a second strand of the same length
as the primary (all gaps), and every command other than `cut` and
`switch`, executed under the main loop's guard
(`-1 < p < length − 1`), preserves the equality of the two lengths:
inserts grow both strands by one, `delete` preserves the primary's
length via gap padding and leaves the second strand alone, and all
moves and scans never change either length.  Hence the second strand's
length equals the primary's at every point before any `cut` or
`switch`. -/
theorem c9_length_invariant :
    (∀ (e : Enzyme) (s : List Char),
      (initState e s).second.length = (initState e s).primary.length)
    ∧ ∀ (a : Amino) (st st1 : OpState), a ≠ .cut → a ≠ .swi →
        0 ≤ st.bound → st.bound < (st.primary.length : Int) - 1 →
        st.second.length = st.primary.length →
        iter a st = .ok st1 → st1.second.length = st1.primary.length := by
  constructor
  · intro e s
    simp [initState]
  · intro a st st1 hcut hswi hb0 hb1 heq hok
    cases a with
    | punctuation =>
      simp only [iter] at hok
      injection hok with h1
      subst h1
      exact heq
    | off =>
      simp only [iter] at hok
      injection hok with h1
      subst h1
      exact heq
    | cop =>
      simp only [iter] at hok
      injection hok with h1
      subst h1
      exact heq
    | del =>
      simp only [iter] at hok
      injection hok with h1
      subst h1
      show st.second.length =
        (pyTake st.primary st.bound ++ pyDrop st.primary (st.bound + 1) ++ [' ']).length
      rw [del_splice_length st.primary hb0 (by omega)]
      exact heq
    | ina =>
      simp only [iter, insertCmd] at hok
      injection hok with h1
      subst h1
      show (pyTake st.second (st.bound + 1) ++ _ ++ pyDrop st.second (st.bound + 1)).length
        = (pyTake st.primary (st.bound + 1) ++ _ ++ pyDrop st.primary (st.bound + 1)).length
      rw [splice_ins_length st.second _ (by omega) (by omega),
        splice_ins_length st.primary _ (by omega) (by omega)]
      omega
    | inc =>
      simp only [iter, insertCmd] at hok
      injection hok with h1
      subst h1
      show (pyTake st.second (st.bound + 1) ++ _ ++ pyDrop st.second (st.bound + 1)).length
        = (pyTake st.primary (st.bound + 1) ++ _ ++ pyDrop st.primary (st.bound + 1)).length
      rw [splice_ins_length st.second _ (by omega) (by omega),
        splice_ins_length st.primary _ (by omega) (by omega)]
      omega
    | ing =>
      simp only [iter, insertCmd] at hok
      injection hok with h1
      subst h1
      show (pyTake st.second (st.bound + 1) ++ _ ++ pyDrop st.second (st.bound + 1)).length
        = (pyTake st.primary (st.bound + 1) ++ _ ++ pyDrop st.primary (st.bound + 1)).length
      rw [splice_ins_length st.second _ (by omega) (by omega),
        splice_ins_length st.primary _ (by omega) (by omega)]
      omega
    | int_ =>
      simp only [iter, insertCmd] at hok
      injection hok with h1
      subst h1
      show (pyTake st.second (st.bound + 1) ++ _ ++ pyDrop st.second (st.bound + 1)).length
        = (pyTake st.primary (st.bound + 1) ++ _ ++ pyDrop st.primary (st.bound + 1)).length
      rw [splice_ins_length st.second _ (by omega) (by omega),
        splice_ins_length st.primary _ (by omega) (by omega)]
      omega
    | cut => exact absurd rfl hcut
    | swi => exact absurd rfl hswi
    | mvr =>
      obtain ⟨hp, hl, _⟩ := moveRight_ok hok (by omega)
      rw [hl, hp]
      exact heq
    | mvl =>
      obtain ⟨hp, hl, _⟩ := moveLeft_ok hok
      rw [hl, hp]
      exact heq
    | rpy =>
      simp only [iter] at hok
      cases hmr : moveRight st with
      | error e => rw [hmr] at hok; exact Except.noConfusion hok
      | ok st2 =>
        rw [hmr] at hok
        simp only at hok
        obtain ⟨hp2, hl2, hb2⟩ := moveRight_ok hmr (by omega)
        split at hok
        case isTrue =>
          injection hok with h1
          subst h1
          rw [hl2, hp2]
          exact heq
        case isFalse =>
          split at hok
          case isTrue =>
            cases hsc : scanRight 'T' 'C' (2 * st2.primary.length + 4) st2 with
            | error e => rw [hsc] at hok; exact Except.noConfusion hok
            | ok st3 =>
              rw [hsc] at hok
              obtain ⟨hp3, hl3⟩ := scanRight_ok _ _ _ _ _ hsc (by omega)
              obtain ⟨hp4, hs4⟩ := detachIfGap_ok hok
              rw [hs4, hp4, hl3, hp3, hl2, hp2]
              exact heq
          case isFalse =>
            injection hok with h1
            subst h1
            rw [hl2, hp2]
            exact heq
    | rpu =>
      simp only [iter] at hok
      cases hmr : moveRight st with
      | error e => rw [hmr] at hok; exact Except.noConfusion hok
      | ok st2 =>
        rw [hmr] at hok
        simp only at hok
        obtain ⟨hp2, hl2, hb2⟩ := moveRight_ok hmr (by omega)
        split at hok
        case isTrue =>
          injection hok with h1
          subst h1
          rw [hl2, hp2]
          exact heq
        case isFalse =>
          split at hok
          case isTrue =>
            cases hsc : scanRight 'A' 'G' (2 * st2.primary.length + 4) st2 with
            | error e => rw [hsc] at hok; exact Except.noConfusion hok
            | ok st3 =>
              rw [hsc] at hok
              obtain ⟨hp3, hl3⟩ := scanRight_ok _ _ _ _ _ hsc (by omega)
              obtain ⟨hp4, hs4⟩ := detachIfGap_ok hok
              rw [hs4, hp4, hl3, hp3, hl2, hp2]
              exact heq
          case isFalse =>
            injection hok with h1
            subst h1
            rw [hl2, hp2]
            exact heq
    | lpy =>
      simp only [iter] at hok
      split at hok
      case isTrue =>
        cases hml : moveLeft st with
        | error e => rw [hml] at hok; exact Except.noConfusion hok
        | ok st2 =>
          rw [hml] at hok
          simp only at hok
          obtain ⟨hp2, hl2, hb2⟩ := moveLeft_ok hml
          cases hsc : scanLeft 'T' 'C' (2 * st.primary.length + 4) st2 with
          | error e => rw [hsc] at hok; exact Except.noConfusion hok
          | ok st3 =>
            rw [hsc] at hok
            obtain ⟨hp3, hl3⟩ := scanLeft_ok _ _ _ _ _ hsc
            obtain ⟨hp4, hs4⟩ := detachIfGap_ok hok
            rw [hs4, hp4, hl3, hp3, hl2, hp2]
            exact heq
      case isFalse =>
        injection hok with h1
        subst h1
        exact heq
    | lpu =>
      simp only [iter] at hok
      cases hml : moveLeft st with
      | error e => rw [hml] at hok; exact Except.noConfusion hok
      | ok st2 =>
        rw [hml] at hok
        simp only at hok
        obtain ⟨hp2, hl2, hb2⟩ := moveLeft_ok hml
        split at hok
        case isTrue =>
          cases hsc : scanLeft 'A' 'G' (2 * st2.primary.length + 4) st2 with
          | error e => rw [hsc] at hok; exact Except.noConfusion hok
          | ok st3 =>
            rw [hsc] at hok
            obtain ⟨hp3, hl3⟩ := scanLeft_ok _ _ _ _ _ hsc
            obtain ⟨hp4, hs4⟩ := detachIfGap_ok hok
            rw [hs4, hp4, hl3, hp3, hl2, hp2]
            exact heq
        case isFalse =>
          injection hok with h1
          subst h1
          rw [hl2, hp2]
          exact heq

/-- C9 (witness). -/
theorem c9_length_invariant_witness :
    (OpState.mk ['A', 'A', 'T', 'G'] [' ', ' ', ' ', ' '] 0 false []).second.length =
      (OpState.mk ['A', 'A', 'T', 'G'] [' ', ' ', ' ', ' '] 0 false []).primary.length :=
  c9_length_invariant.2 .ina ⟨['A', 'T', 'G'], [' ', ' ', ' '], 0, false, []⟩
    ⟨['A', 'A', 'T', 'G'], [' ', ' ', ' ', ' '], 0, false, []⟩
    (by decide) (by decide) (by decide) (by decide) (by decide) (by decide)

end Typogenetics
